import Mathlib

/- Verification of the MagicImageMaker application (app.py) against its
   natural-language specification.  Python strings are modelled at the
   character-list level (List Char), with String wrappers at the boundary;
   Python machine-independent ints are Nat.  Each embedded definition is a
   direct translation of the corresponding function in app.py. -/

/- ============================================================
   Generic character/string utilities mirroring Python primitives
   ============================================================ -/

/-- Python str.strip(): remove leading and trailing whitespace. -/
def pyStripL (l : List Char) : List Char :=
  ((l.dropWhile Char.isWhitespace).reverse.dropWhile Char.isWhitespace).reverse

/-- Python str.strip() on String. -/
def pyStrip (s : String) : String := String.mk (pyStripL s.data)

theorem lenDropWhileLe (p : Char → Bool) (l : List Char) :
    (l.dropWhile p).length ≤ l.length := by
  induction l with
  | nil => simp [List.dropWhile]
  | cons c cs ih =>
    simp only [List.dropWhile]
    by_cases h : p c
    · simp [h]; omega
    · simp [h]

theorem pyStripL_length_le (l : List Char) : (pyStripL l).length ≤ l.length := by
  unfold pyStripL
  calc ((l.dropWhile Char.isWhitespace).reverse.dropWhile Char.isWhitespace).reverse.length
      = ((l.dropWhile Char.isWhitespace).reverse.dropWhile Char.isWhitespace).length := by
        simp
    _ ≤ (l.dropWhile Char.isWhitespace).reverse.length := lenDropWhileLe _ _
    _ = (l.dropWhile Char.isWhitespace).length := by simp
    _ ≤ l.length := lenDropWhileLe _ _

theorem pyStripL_nil : pyStripL [] = [] := rfl

/- ============================================================
   C1 / C3: rule-based character-budget splitter
   (the except-branch of split_text_automatically, app.py 332-347)
   ============================================================ -/

/-- Sentence-ending punctuation recognised by the regex [.?!] in app.py. -/
def isSentEnd (c : Char) : Bool := c = '.' || c = '?' || c = '!'

/-- Python re.split with pattern (?<=[.?!])\s+ : the text is cut at every
maximal whitespace run that immediately follows one of . ? ! ; the whitespace
run itself is discarded.  cur is the reversed prefix of the current piece. -/
def splitSentAux : List Char → List Char → List (List Char)
  | [], cur => [cur.reverse]
  | c :: cs, cur =>
    if isSentEnd c then
      match h : cs with
      | [] => [(c :: cur).reverse]
      | d :: ds =>
        if d.isWhitespace then
          (c :: cur).reverse :: splitSentAux (ds.dropWhile Char.isWhitespace) []
        else
          splitSentAux cs (c :: cur)
    else
      splitSentAux cs (c :: cur)
  termination_by l _ => l.length
  decreasing_by
    all_goals try simp_wf
    all_goals try subst_vars
    all_goals try simp only [List.length_cons]
    all_goals try omega
    all_goals have := lenDropWhileLe Char.isWhitespace ds
    all_goals omega

/-- re.split applied to full_text.strip(), as in app.py line 336. -/
def splitSentences (s : String) : List (List Char) :=
  splitSentAux (pyStripL s.data) []

/-- The greedy accumulation loop of app.py lines 337-346: sentences whose
strip is empty are skipped; if adding the next sentence would push the
accumulator past target_chars the accumulator is emitted (stripped) and the
sentence starts a fresh accumulator, otherwise the sentence is appended after
a single space; a non-empty final accumulator is emitted at the end. -/
def accumAux (B : Nat) : List (List Char) → List Char → List (List Char)
  | [], cc => if cc.isEmpty then [] else [pyStripL cc]
  | s :: rest, cc =>
    if (pyStripL s).isEmpty then accumAux B rest cc
    else if B < cc.length + s.length then
      (if cc.isEmpty then [] else [pyStripL cc]) ++ accumAux B rest s
    else
      accumAux B rest (cc ++ ' ' :: s)

/-- The rule-based character-budget splitter: the fallback branch of
split_text_automatically (app.py lines 332-347). -/
def fallbackSplit (s : String) (B : Nat) : List String :=
  (accumAux B (splitSentences s) []).map String.mk

/- ============================================================
   Word splitting (Python str.split() and re.sub whitespace collapse)
   ============================================================ -/

/-- Python str.split() with no separator: maximal non-whitespace runs,
with empty pieces discarded.  cur is the reversed current word. -/
def wordsAux : List Char → List Char → List (List Char)
  | [], cur => if cur.isEmpty then [] else [cur.reverse]
  | c :: cs, cur =>
    if c.isWhitespace then
      if cur.isEmpty then wordsAux cs [] else cur.reverse :: wordsAux cs []
    else
      wordsAux cs (c :: cur)

/-- The whitespace-separated words of a character list. -/
def wordsOf (l : List Char) : List (List Char) := wordsAux l []

/-- Python sep.join for sep = a single space. -/
def joinSpace : List (List Char) → List Char
  | [] => []
  | [w] => w
  | w :: ws => w ++ ' ' :: joinSpace ws

/-- Python re.sub(r'\s+', ' ', s).strip(): collapse every whitespace run to
one space and strip the ends; equivalently, join the words with single
spaces. -/
def collapseWSL (l : List Char) : List Char := joinSpace (wordsOf l)

/-- Python str.split over the single character newline (keeps empty pieces). -/
def splitNLAux : List Char → List Char → List (List Char)
  | [], cur => [cur.reverse]
  | c :: cs, cur =>
    if c = '\n' then cur.reverse :: splitNLAux cs [] else splitNLAux cs (c :: cur)

/-- Python s.split(chr(10)). -/
def splitNL (l : List Char) : List (List Char) := splitNLAux l []

/-- Python str concatenation of a list of strings (like the empty-string
join), folded from the right so that concatAll (a :: t) = a ++ concatAll t. -/
def concatAll (l : List String) : String := l.foldr (fun a b => a ++ b) ""

/-- Substring occurrence scan over character lists. -/
def containsL (pat : List Char) : List Char → Bool
  | [] => pat.isEmpty
  | c :: t => pat.isPrefixOf (c :: t) || containsL pat t

/-- Python substring membership test (the in operator on str). -/
def strContains (s pat : String) : Bool := containsL pat.data s.data

/- ============================================================
   Decimal rendering of naturals (Python str(int) and format 03d)
   ============================================================ -/

/-- The decimal digit character of d (for d below ten). -/
def digitChar (d : Nat) : Char := Char.ofNat (48 + d)

/-- Decimal digits of a positive natural, most significant first. -/
def natDigits (n : Nat) : List Char :=
  if h : n = 0 then []
  else natDigits (n / 10) ++ [digitChar (n % 10)]
  termination_by n
  decreasing_by exact Nat.div_lt_self (Nat.pos_of_ne_zero h) (by decide)

/-- Python str(n) for a natural number. -/
def natRepr (n : Nat) : List Char := if n = 0 then ['0'] else natDigits n

/-- Python str(n) as a String. -/
def natToString (n : Nat) : String := String.mk (natRepr n)

/-- Python format spec 03d: left-pad the decimal rendering with zeros to
width three. -/
def pad3 (n : Nat) : List Char :=
  List.replicate (3 - (natRepr n).length) '0' ++ natRepr n

/- ============================================================
   C3: split_text_automatically (app.py lines 287-347)
   ============================================================ -/

/-- Outcome of the AI context-aware split call as observed by
split_text_automatically: the request/JSON-parse raised, or json.loads
produced a list of strings, or it produced a non-list payload. -/
inductive AIsplit where
  | raised : AIsplit
  | jsonList : List String → AIsplit
  | jsonNonList : AIsplit

/-- The nested fallback inside the try of split_text_automatically
(app.py line 330): full_text.split(newline), each piece stripped, blanks
discarded. -/
def newlineSplit (s : String) : List String :=
  (((splitNL s.data).map pyStripL).filter (fun l => !l.isEmpty)).map String.mk

/-- split_text_automatically (app.py lines 287-347), as a function of the
observed AI-call outcome: a list payload is cleaned (strip, drop blanks); a
non-list payload degrades to the newline split; a raised error degrades to
the rule-based character-budget splitter. -/
def split_text_automatically (resp : AIsplit) (full_text : String) (target_chars : Nat) :
    List String :=
  match resp with
  | .jsonList scenes => ((scenes.map pyStrip).filter (fun s => !s.isEmpty))
  | .jsonNonList => newlineSplit full_text
  | .raised => fallbackSplit full_text target_chars

/- ============================================================
   C2: generate_prompt (app.py lines 367-429)
   ============================================================ -/

/-- Outcome of the raw HTTP prompt-composition call in generate_prompt:
either requests.post raised with a message, or a response arrived with a
status code and, when extraction of candidates0.content.parts0.text
succeeds, the extracted text. -/
inductive PromptHttp where
  | raised : String → PromptHttp
  | resp : Nat → Option String → PromptHttp

/-- The fixed style suffix appended to every composed prompt
(app.py lines 378-384). -/
def style_suffix : String :=
  ", 2D flat animation style. The white stickman MUST be fully dressed, **wearing both a colorful top (shirt/suit) and long pants (trousers)**. Single unified scene, NO split screens. **Text must be placed inside a high-contrast speech bubble or on a clear signboard with a thick black outline** to ensure it is not buried by the background. High-key studio lighting, vivid colors."

/-- Python str.rstrip(chr(46)): drop trailing full stops. -/
def pyRstripDot (s : String) : String :=
  String.mk ((s.data.reverse.dropWhile (fun c => c = '.')).reverse)

/-- generate_prompt (app.py lines 367-429) as a function of the observed
HTTP outcome: on status 200 with successful text extraction the stripped
text loses its trailing dots and gains the style suffix; on status 200 with
failed extraction the raw scene text gains the style suffix; on any other
status or a raised exception the returned prompt is an Error string. -/
def generate_prompt (res : PromptHttp) (index : Nat) (text_chunk : String) :
    Nat × String :=
  let scene_num := index + 1
  match res with
  | .raised msg => (scene_num, "Error: " ++ msg)
  | .resp status parsed =>
    if status = 200 then
      match parsed with
      | some raw => (scene_num, pyRstripDot (pyStrip raw) ++ style_suffix)
      | none => (scene_num, text_chunk ++ style_suffix)
    else
      (scene_num, "Error: " ++ natToString status)

/- ============================================================
   C4: generate_image (app.py lines 434-509)
   ============================================================ -/

/-- Outcome of one attempt of the image-generation call: ok true means a
response with an inline image payload that was decoded and saved; ok false
means a response without an image payload; exn is a raised exception with
its message string. -/
inductive ImgOutcome where
  | ok : Bool → ImgOutcome
  | exn : String → ImgOutcome
  deriving DecidableEq

/-- The rate-limit test of app.py line 494: the digits 429 or the word
ResourceExhausted occur in the error message. -/
def isRateLimitMsg (msg : String) : Bool :=
  strContains msg "429" || strContains msg "ResourceExhausted"

/-- Seconds slept after a failed attempt (app.py lines 480-505): 2 for a
response without an image payload; for an exception, 30 on a rate-limit
message and 5 both on an invalid-argument/safety message and on any other
message. -/
def attemptWait : ImgOutcome → Nat
  | .ok _ => 2
  | .exn msg =>
    if isRateLimitMsg msg then 30
    else if strContains msg "400" || strContains msg "InvalidArgument" ||
        strContains msg.toUpper "SAFETY" then 5
    else 5

/-- The retry loop of generate_image: attempt is the 1-based attempt number,
the second Nat is the remaining attempts (fuel).  Returns the saved path (if
any attempt succeeded) together with the list of sleeps performed after the
failed attempts, in order. -/
def genImgAux (outcomes : Nat → ImgOutcome) (path : String) :
    Nat → Nat → Option String × List Nat
  | _, 0 => (none, [])
  | attempt, fuel + 1 =>
    if outcomes attempt = ImgOutcome.ok true then (some path, [])
    else
      let r := genImgAux outcomes path (attempt + 1) fuel
      (r.1, attemptWait (outcomes attempt) :: r.2)

/-- generate_image (app.py lines 434-509) as a function of the per-attempt
outcomes: max_retries = 10 attempts numbered from 1; on success the full
path output_dir/filename is returned, after 10 failures none is returned. -/
def generate_image (outcomes : Nat → ImgOutcome) (filename output_dir : String) :
    Option String × List Nat :=
  genImgAux outcomes (output_dir ++ "/" ++ filename) 1 10

/- ============================================================
   C8: the image batch submission loop pause (app.py lines 1358-1362)
   ============================================================ -/

/-- total_rate_limit (app.py line 1327): assumed aggregate quota of 20
requests per minute per credential. -/
def total_rate_limit (num_clients : Nat) : Nat := num_clients * 20

/-- The 60-second protective pause decision taken before each submission
(app.py lines 1360-1362): only with more than one client, a positive
cumulative request count, and the count a multiple of the aggregate quota.
Returns the seconds paused. -/
def submissionPause (num_clients request_count : Nat) : Nat :=
  if 1 < num_clients ∧ 0 < request_count ∧
      request_count % total_rate_limit num_clients = 0 then 60 else 0

/- ============================================================
   C7: dependent-video invalidation (app.py 1568-1573 and 1450-1453)
   ============================================================ -/

/-- One entry of st.session_state generated_results (app.py 1376-1384). -/
structure SceneResult where
  scene : Nat
  path : String
  filename : String
  script : String
  prompt : String
  audio_path : Option String
  video_path : Option String

/-- The per-scene image regeneration handler (app.py lines 1563-1578): when
generate_image returned a path, store the new path and prompt and reset the
dependent video path; when it returned none, the item is left unchanged. -/
def regenImgHandler (item : SceneResult) (new_path : Option String)
    (new_prompt : String) : SceneResult :=
  match new_path with
  | some p => { item with path := p, prompt := new_prompt, video_path := none }
  | none => item

/-- The batch TTS result handler (app.py lines 1450-1455): when the result
string carries no Error and no VOICE_NOT_FOUND marker, store it as the audio
path and reset the dependent video path; otherwise leave the item unchanged. -/
def ttsBatchHandler (item : SceneResult) (result_path : String) : SceneResult :=
  if !strContains result_path "Error" && !strContains result_path "VOICE_NOT_FOUND" then
    { item with audio_path := some result_path, video_path := none }
  else item

/- ============================================================
   C5: num_to_kor (app.py lines 49-86)
   ============================================================ -/

/-- Python str.replace(chr(44), empty): remove every comma. -/
def stripCommas (s : String) : String := String.mk (s.data.filter (fun c => c ≠ ','))

/-- Python str.isdigit restricted to ASCII decimal digits: non-empty and all
characters are 0-9. -/
def isDigitStr (s : String) : Bool := !s.data.isEmpty && s.data.all Char.isDigit

/-- Python int() on a decimal digit string. -/
def strToNat (s : String) : Nat := s.data.foldl (fun a c => a * 10 + (c.toNat - 48)) 0

/-- The four position units of num_to_kor (app.py line 58). -/
def units : List String := ["", "십", "백", "천"]

/-- The five large-scale units of num_to_kor (app.py line 59). -/
def big_units : List String := ["", "만", "억", "조", "경"]

/-- The digit words of num_to_kor (app.py line 60). -/
def num_chars : List String := ["", "일", "이", "삼", "사", "오", "육", "칠", "팔", "구"]

/-- The inner while of num_to_kor (app.py lines 70-79) over one four-digit
group: walks the decimal digits least significant first at position small_idx,
skipping zeros, suppressing the word for digit 1 at positions above the ones,
and collecting digit-word plus position-unit entries in append order
(least-significant entry first).  List indexing is modelled by get?, so an
out-of-range index (the IndexError of the Python source) yields none. -/
def smallLoop (sp si : Nat) : Option (List String) :=
  if h : sp = 0 then some []
  else
    let digit := sp % 10
    let entry : Option (Option String) :=
      if 0 < digit then
        match units.get? si, num_chars.get? digit with
        | some unit, some ch =>
          some (some ((if digit = 1 ∧ 0 < si then "" else ch) ++ unit))
        | _, _ => none
      else some none
    match entry, smallLoop (sp / 10) (si + 1) with
    | some e, some rest =>
      some (match e with
        | some w => w :: rest
        | none => rest)
    | _, _ => none
  termination_by sp
  decreasing_by exact Nat.div_lt_self (Nat.pos_of_ne_zero h) (by decide)

/-- The outer while of num_to_kor (app.py lines 65-82): walks the four-digit
groups least significant first at scale index big_idx, skipping zero groups,
rendering each non-zero group as its reversed-joined digit entries plus its
large-scale unit, in append order (least-significant group first). -/
def bigLoop (num big_idx : Nat) : Option (List String) :=
  if h : num = 0 then some []
  else
    let small_part := num % 10000
    let entry : Option (Option String) :=
      if 0 < small_part then
        match smallLoop small_part 0, big_units.get? big_idx with
        | some small_res, some bu => some (some (concatAll small_res.reverse ++ bu))
        | _, _ => none
      else some none
    match entry, bigLoop (num / 10000) (big_idx + 1) with
    | some e, some rest =>
      some (match e with
        | some w => w :: rest
        | none => rest)
    | _, _ => none
  termination_by num
  decreasing_by exact Nat.div_lt_self (Nat.pos_of_ne_zero h) (by decide)

/-- num_to_kor (app.py lines 49-86): commas are removed first; a string that
is then not a pure digit string is returned as is; value zero renders as the
zero word; otherwise the reversed join of the group renderings; the except
handler returns the comma-stripped input when list indexing failed. -/
def num_to_kor (num_str : String) : String :=
  let s := stripCommas num_str
  if !isDigitStr s then s
  else
    let num := strToNat s
    if num = 0 then "영"
    else
      match bigLoop num 0 with
      | some result => concatAll result.reverse
      | none => s

/- Refinement target for C5, modelled from the claim and spec wording
(spec.md 4.2): base-10000 grouping, zero digits skipped, the digit word for
1 suppressed at every non-ones position, each group followed by its
large-scale suffix, groups concatenated most significant first. -/

/-- Spec wording: render one decimal digit d at position pos inside a group
(pos 0 = ones): zero digits are skipped; the digit word is suppressed when
the digit is 1 and the position is not the ones position; digit word then
position unit. -/
def specDigitWord (d pos : Nat) : String :=
  if d = 0 then ""
  else (if d = 1 ∧ 0 < pos then "" else num_chars.getD d "") ++ units.getD pos ""

/-- Spec wording: render a four-digit group by walking its digits, most
significant digit word first. -/
def specGroupJoin (sp pos : Nat) : String :=
  if h : sp = 0 then ""
  else specGroupJoin (sp / 10) (pos + 1) ++ specDigitWord (sp % 10) pos
  termination_by sp
  decreasing_by exact Nat.div_lt_self (Nat.pos_of_ne_zero h) (by decide)

/-- Spec wording: concatenate the non-empty group renderings, each with its
large-scale suffix, most significant group first; none when a non-zero group
has no named large-scale unit. -/
def specBig (n i : Nat) : Option String :=
  if h : n = 0 then some ""
  else
    let g := n % 10000
    match specBig (n / 10000) (i + 1) with
    | none => none
    | some rest =>
      if 0 < g then
        match big_units.get? i with
        | some bu => some (rest ++ (specGroupJoin g 0 ++ bu))
        | none => none
      else some rest
  termination_by n
  decreasing_by exact Nat.div_lt_self (Nat.pos_of_ne_zero h) (by decide)

/-- Spec wording for the whole spoken-number rendering: zero renders as the
zero word, any other value by its grouped rendering. -/
def specRender (n : Nat) : Option String :=
  if n = 0 then some "영" else specBig n 0

/- ============================================================
   C6: create_video_with_zoom (app.py lines 661-724)
   ============================================================ -/

/-- max_crop_ratio of app.py line 681, as an exact rational. -/
def maxCrop : ℚ := 85 / 100

/-- The per-frame visible-region ratio of the effect closure (app.py lines
683-688): progress is t over duration; zoom-in shrinks from 1, zoom-out
grows from max_crop_ratio. -/
def zoomCrop (is_zoom_in : Bool) (t duration : ℚ) : ℚ :=
  let progress := t / duration
  if is_zoom_in then 1 - (1 - maxCrop) * progress
  else maxCrop + (1 - maxCrop) * progress

/-- Left edge of the crop rectangle (app.py line 693): x0 = (W - roi_w) / 2
with roi_w = W * ratio.  The vertical bounds use the same formula in H. -/
def cropX0 (W r : ℚ) : ℚ := (W - W * r) / 2

/-- Right edge of the crop rectangle (app.py line 695): x1 = x0 + roi_w. -/
def cropX1 (W r : ℚ) : ℚ := cropX0 W r + W * r

/-- The even-dimension normalization of app.py lines 676-677: an odd width
or height is decremented by one. -/
def normalizeEven (n : Nat) : Nat := if n % 2 ≠ 0 then n - 1 else n

/- ============================================================
   C9: make_filename (app.py lines 349-362)
   ============================================================ -/

/-- The test for the path-illegal characters removed by make_filename
(the regex character class of app.py line 351). -/
def isIllegalChar (c : Char) : Bool :=
  c = '\\' || c = '/' || c = ':' || c = '*' || c = '?' ||
  c = Char.ofNat 34 || c = '<' || c = '>' || c = '|'

/-- The cleaned character list of make_filename (app.py lines 350-351):
newlines replaced by spaces, then stripped, then the path-illegal characters
removed. -/
def cleanedChunk (text_chunk : String) : List Char :=
  (pyStripL (text_chunk.data.map (fun c => if c = '\n' then ' ' else c))).filter
    (fun c => !isIllegalChar c)

/-- The summary of make_filename (app.py lines 353-359): all words joined
when there are at most six, otherwise the first three words, three dots, and
the last three words. -/
def summaryOf (text_chunk : String) : List Char :=
  if (wordsOf (cleanedChunk text_chunk)).length ≤ 6 then
    joinSpace (wordsOf (cleanedChunk text_chunk))
  else
    joinSpace ((wordsOf (cleanedChunk text_chunk)).take 3) ++ '.' :: '.' :: '.' ::
      joinSpace ((wordsOf (cleanedChunk text_chunk)).drop
        ((wordsOf (cleanedChunk text_chunk)).length - 3))

/-- make_filename (app.py lines 349-362). -/
def make_filename (scene_num : Nat) (text_chunk : String) : String :=
  String.mk ('S' :: pad3 scene_num ++ '_' :: summaryOf text_chunk ++ ['.', 'p', 'n', 'g'])

/- ============================================================
   C10: parse_numbered_script (app.py lines 241-282)
   ============================================================ -/

/-- The regex match of app.py line 258 on a stripped line: one or more
leading digits followed by a full stop start a new scene; the rest of the
line is returned.  An empty or non-matching line yields none. -/
def matchMarker (l : List Char) : Option (List Char) :=
  let ds := l.takeWhile Char.isDigit
  if ds.isEmpty then none
  else
    match l.drop ds.length with
    | '.' :: rest => some rest
    | _ => none

/-- The scene text built from the accumulated lines (app.py lines 262-264
and 277-278): lines joined by single spaces, whitespace runs collapsed,
stripped. -/
def sceneText (acc : List (List Char)) : List Char := collapseWSL (joinSpace acc)

/-- Emission of the accumulated scene (appended only when non-empty). -/
def emitScene (acc : List (List Char)) : List (List Char) :=
  if (sceneText acc).isEmpty then [] else [sceneText acc]

/-- The line loop of parse_numbered_script (app.py lines 252-280): blank
lines are skipped; a marker line flushes the accumulated scene and restarts
the accumulator from the text after the marker; other lines are accumulated;
the final accumulated scene is flushed at the end. -/
def parseLoop : List (List Char) → List (List Char) → List (List Char)
  | [], acc => emitScene acc
  | l :: ls, acc =>
    let t := pyStripL l
    if t.isEmpty then parseLoop ls acc
    else
      match matchMarker t with
      | some rest =>
          emitScene acc ++
            parseLoop ls (if (pyStripL rest).isEmpty then [] else [pyStripL rest])
      | none => parseLoop ls (acc ++ [t])

/-- parse_numbered_script (app.py lines 241-282): the script is stripped,
split on newlines, and run through the line loop with an empty accumulator. -/
def parse_numbered_script (script : String) : List String :=
  (parseLoop (splitNL (pyStripL script.data)) []).map String.mk

/- ============================================================
   Theorems
   ============================================================ -/

/-- C6: for every scene rendered with zoom-in the visible crop ratio at
progress p = t/duration equals exactly 1 - 0.15 p (1 at t = 0, 0.85 at
t = duration); for zoom-out it equals 0.85 + 0.15 p (0.85 at t = 0, 1 at
t = duration); the crop rectangle is centered (equal left and right
margins); and frame dimensions are normalized to even numbers by
decrementing an odd value by one. -/
theorem C6_zoom_math (t d : ℚ) (hd : d ≠ 0) :
    zoomCrop true t d = 1 - (15 / 100) * (t / d) ∧
    zoomCrop false t d = 85 / 100 + (15 / 100) * (t / d) ∧
    zoomCrop true 0 d = 1 ∧
    zoomCrop true d d = 85 / 100 ∧
    zoomCrop false 0 d = 85 / 100 ∧
    zoomCrop false d d = 1 ∧
    (∀ W r : ℚ, cropX0 W r = W - cropX1 W r) ∧
    (∀ n : Nat, normalizeEven n % 2 = 0 ∧
      (n % 2 = 1 → normalizeEven n = n - 1) ∧ (n % 2 = 0 → normalizeEven n = n)) := by
  have hdd : d / d = 1 := div_self hd
  refine ⟨?_, ?_, ?_, ?_, ?_, ?_, ?_, ?_⟩
  · simp [zoomCrop, maxCrop]; exact Or.inl (by norm_num)
  · simp [zoomCrop, maxCrop]; exact Or.inl (by norm_num)
  · simp [zoomCrop, maxCrop]
  · simp [zoomCrop, maxCrop, hdd]
  · simp [zoomCrop, maxCrop]
  · simp [zoomCrop, maxCrop, hdd]
  · intro W r; simp only [cropX0, cropX1]; ring
  · intro n
    refine ⟨?_, ?_, ?_⟩
    · simp only [normalizeEven]; split <;> omega
    · intro h; simp only [normalizeEven]; split <;> omega
    · intro h; simp only [normalizeEven]; split <;> omega

/-- Witness for C6 at duration 2, evaluating the boundary ratios. -/
theorem C6_witness :
    (2 : ℚ) ≠ 0 ∧ zoomCrop true 0 2 = 1 ∧ zoomCrop true 2 2 = 85 / 100 ∧
    zoomCrop false 0 2 = 85 / 100 ∧ zoomCrop false 2 2 = 1 := by
  have h2 : (2 : ℚ) ≠ 0 := by norm_num
  obtain ⟨-, -, h3, h4, h5, h6, -, -⟩ := C6_zoom_math 1 2 h2
  exact ⟨h2, h3, h4, h5, h6⟩

/-- C7: regenerating a scene image clears the dependent video path in the
same update, and a successful batch TTS result stores the new audio path and
clears the dependent video path in the same update. -/
theorem C7_video_invalidation (item : SceneResult) (p np res : String)
    (h1 : strContains res "Error" = false)
    (h2 : strContains res "VOICE_NOT_FOUND" = false) :
    (regenImgHandler item (some p) np).video_path = none ∧
    (regenImgHandler item (some p) np).path = p ∧
    (regenImgHandler item (some p) np).prompt = np ∧
    (ttsBatchHandler item res).audio_path = some res ∧
    (ttsBatchHandler item res).video_path = none := by
  refine ⟨rfl, rfl, rfl, ?_, ?_⟩ <;> simp [ttsBatchHandler, h1, h2]

/-- Witness for C7 on a concrete scene entry and audio path. -/
theorem C7_witness :
    strContains "S001_audio.wav" "Error" = false ∧
    strContains "S001_audio.wav" "VOICE_NOT_FOUND" = false ∧
    (ttsBatchHandler ⟨1, "img.png", "f.png", "script", "prompt", none,
        some "old_video.mp4"⟩ "S001_audio.wav").video_path = none := by
  refine ⟨by decide, by decide, ?_⟩
  exact (C7_video_invalidation ⟨1, "img.png", "f.png", "script", "prompt", none,
    some "old_video.mp4"⟩ "p" "np" "S001_audio.wav" (by decide) (by decide)).2.2.2.2

/-- C8 counterexample: with a single credential the cumulative count 20 is a
positive multiple of the aggregate quota 1 * 20, yet the orchestrator does
not pause at all (the 60-second pause is gated on more than one client), so
the claimed pause for every credential count is false. -/
theorem C8_counterexample :
    submissionPause 1 20 = 0 ∧ submissionPause 1 20 ≠ 60 := by
  refine ⟨?_, ?_⟩ <;> decide

/-- C8 amended: only when more than one credential is configured does every
positive multiple of the aggregate quota (credential count times 20) trigger
the 60-second pause before the next submission; with a single credential the
orchestrator never takes the 60-second pause. -/
theorem C8_quota_pause_amended (n c : Nat) (hn : 2 ≤ n) (hc : 0 < c)
    (hm : c % (n * 20) = 0) :
    submissionPause n c = 60 ∧ ∀ k : Nat, submissionPause 1 k = 0 := by
  constructor
  · simp only [submissionPause, total_rate_limit]
    rw [if_pos]
    exact ⟨by omega, hc, hm⟩
  · intro k
    simp only [submissionPause, total_rate_limit]
    rw [if_neg]
    rintro ⟨h1, -, -⟩
    omega

/-- Witness for C8 amended at two credentials and 40 cumulative requests. -/
theorem C8_witness :
    (2 ≤ 2 ∧ 0 < 40 ∧ 40 % (2 * 20) = 0) ∧ submissionPause 2 40 = 60 :=
  ⟨⟨by decide, by decide, by decide⟩,
    (C8_quota_pause_amended 2 40 (by decide) (by decide) (by decide)).1⟩

/-- C2 counterexample: a 429 rate-limit response makes generate_prompt
return the error string Error: 429 as the prompt, not a fallback prompt
built from the scene text plus the style suffix, and with no delay. -/
theorem C2_counterexample :
    (generate_prompt (PromptHttp.resp 429 none) 0 "장면 대본").2 = "Error: 429" ∧
    (generate_prompt (PromptHttp.resp 429 none) 0 "장면 대본").2 ≠ "장면 대본" ++ style_suffix := by
  have hs : natToString 429 = "429" := by
    simp [natToString, natRepr, natDigits, digitChar]
  have h1 : (generate_prompt (PromptHttp.resp 429 none) 0 "장면 대본").2
      = "Error: " ++ natToString 429 := rfl
  rw [h1, hs]
  constructor
  · rfl
  · decide

/-- C2 amended: the raw-scene-text fallback prompt (scene text plus the
fixed style suffix) is produced only when the HTTP call returns status 200
but payload extraction fails; a successful 200 yields the extracted text
(stripped, trailing dots removed) plus the style suffix; any non-200 status
(including 429, with no delay) and any raised exception yield an Error
string as the returned prompt. -/
theorem C2_prompt_fallback_amended (idx : Nat) (chunk msg raw : String)
    (status : Nat) (parsed : Option String) (hst : status ≠ 200) :
    generate_prompt (PromptHttp.raised msg) idx chunk = (idx + 1, "Error: " ++ msg) ∧
    generate_prompt (PromptHttp.resp status parsed) idx chunk
      = (idx + 1, "Error: " ++ natToString status) ∧
    generate_prompt (PromptHttp.resp 200 none) idx chunk
      = (idx + 1, chunk ++ style_suffix) ∧
    generate_prompt (PromptHttp.resp 200 (some raw)) idx chunk
      = (idx + 1, pyRstripDot (pyStrip raw) ++ style_suffix) := by
  refine ⟨rfl, ?_, rfl, rfl⟩
  simp [generate_prompt, hst]

/-- Witness for C2 amended at a concrete 503 response and scene text. -/
theorem C2_witness :
    (503 ≠ 200) ∧
    generate_prompt (PromptHttp.resp 503 none) 2 "본문"
      = (3, "Error: " ++ natToString 503) :=
  ⟨by decide, (C2_prompt_fallback_amended 2 "본문" "m" "r" 503 none (by decide)).2.1⟩

/-- C3 counterexample: a payload that parses to JSON but is not a list makes
split_text_automatically return the newline split of the text, which differs
from the rule-based character-budget split of the same text. -/
theorem C3_counterexample :
    split_text_automatically AIsplit.jsonNonList "aaaa. bbbb." 5 = ["aaaa. bbbb."] ∧
    fallbackSplit "aaaa. bbbb." 5 = ["aaaa.", "bbbb."] ∧
    split_text_automatically AIsplit.jsonNonList "aaaa. bbbb." 5
      ≠ fallbackSplit "aaaa. bbbb." 5 := by
  have h1 : split_text_automatically AIsplit.jsonNonList "aaaa. bbbb." 5
      = ["aaaa. bbbb."] := by decide
  have h2 : fallbackSplit "aaaa. bbbb." 5 = ["aaaa.", "bbbb."] := by
    simp [fallbackSplit, splitSentences, splitSentAux, accumAux, pyStripL, isSentEnd]
  refine ⟨h1, h2, ?_⟩
  rw [h1, h2]
  decide

/-- C3 amended: on a raised error (API call, JSON decode, or item cleanup)
the engine returns exactly the rule-based character-budget split of the same
text; on a payload that is a non-list JSON value it instead returns the text
split on newlines with blank lines dropped; a well-formed list payload is
returned stripped with blank entries dropped. -/
theorem C3_ai_split_fallback_amended (full_text : String) (target : Nat)
    (scenes : List String) :
    split_text_automatically AIsplit.raised full_text target
      = fallbackSplit full_text target ∧
    split_text_automatically AIsplit.jsonNonList full_text target
      = newlineSplit full_text ∧
    split_text_automatically (AIsplit.jsonList scenes) full_text target
      = (scenes.map pyStrip).filter (fun s => !s.isEmpty) :=
  ⟨rfl, rfl, rfl⟩

theorem genImgAux_all_fail (outcomes : Nat → ImgOutcome) (path : String) :
    ∀ (fuel a : Nat),
      (∀ j, a ≤ j → j < a + fuel →
        ∃ m, outcomes j = ImgOutcome.exn m ∧ isRateLimitMsg m = true) →
      genImgAux outcomes path a fuel = (none, List.replicate fuel 30) := by
  intro fuel
  induction fuel with
  | zero => intro a _; rfl
  | succ fuel ih =>
    intro a hall
    obtain ⟨m, hm, hrl⟩ := hall a (Nat.le_refl a) (by omega)
    have hrest := ih (a + 1) (fun j h1 h2 => hall j (by omega) (by omega))
    simp [genImgAux, hm, hrest, attemptWait, hrl, List.replicate_succ]

theorem genImgAux_wait_count (outcomes : Nat → ImgOutcome) (path : String) :
    ∀ (fuel a : Nat), (genImgAux outcomes path a fuel).2.length ≤ fuel := by
  intro fuel
  induction fuel with
  | zero => intro a; simp [genImgAux]
  | succ fuel ih =>
    intro a
    cases houtcome : outcomes a with
    | ok b =>
      cases b
      · have := ih (a + 1)
        simp [genImgAux, houtcome]
        omega
      · simp [genImgAux, houtcome]
    | exn m =>
      have := ih (a + 1)
      simp [genImgAux, houtcome]
      omega

theorem genImgAux_wait_eq (outcomes : Nat → ImgOutcome) (path : String) :
    ∀ (fuel a i : Nat), i < (genImgAux outcomes path a fuel).2.length →
      (genImgAux outcomes path a fuel).2[i]? = some (attemptWait (outcomes (a + i))) := by
  intro fuel
  induction fuel with
  | zero => intro a i h; simp [genImgAux] at h
  | succ fuel ih =>
    intro a i h
    by_cases hsucc : outcomes a = ImgOutcome.ok true
    · exfalso
      simp only [genImgAux, hsucc, if_pos] at h
      simp at h
    · simp only [genImgAux, hsucc, if_neg, not_false_iff] at h ⊢
      cases i with
      | zero => simp
      | succ i =>
        simp only [List.length_cons] at h
        have hlt : i < (genImgAux outcomes path (a + 1) fuel).2.length := by omega
        simp only [List.getElem?_cons_succ]
        have harg : a + (i + 1) = (a + 1) + i := by omega
        rw [harg]
        exact ih (a + 1) i hlt

/-- C4: against a service whose every call fails with a rate-limit
indication, generate_image makes exactly 10 attempts, sleeping 30 seconds
after each failed attempt, then returns an absent path; in general at most
10 attempts are made, the sleep after the i-th failed attempt is determined
by that attempt's outcome, and the per-class sleeps are 2 seconds for a
response without an image payload, 30 seconds for a rate-limit error, and 5
seconds for an invalid-argument/safety rejection or any other exception. -/
theorem C4_image_retry (outcomes : Nat → ImgOutcome) (filename output_dir : String)
    (hall : ∀ j, 1 ≤ j → j ≤ 10 →
      ∃ m, outcomes j = ImgOutcome.exn m ∧ isRateLimitMsg m = true) :
    generate_image outcomes filename output_dir = (none, List.replicate 10 30) ∧
    (∀ (oc : Nat → ImgOutcome) (f d : String),
      (generate_image oc f d).2.length ≤ 10) ∧
    (∀ (oc : Nat → ImgOutcome) (f d : String) (i : Nat),
      i < (generate_image oc f d).2.length →
      (generate_image oc f d).2[i]? = some (attemptWait (oc (1 + i)))) ∧
    attemptWait (ImgOutcome.ok false) = 2 ∧
    (∀ m, isRateLimitMsg m = true → attemptWait (ImgOutcome.exn m) = 30) ∧
    (∀ m, isRateLimitMsg m = false → attemptWait (ImgOutcome.exn m) = 5) := by
  refine ⟨?_, ?_, ?_, rfl, ?_, ?_⟩
  · exact genImgAux_all_fail outcomes _ 10 1 (fun j h1 h2 => hall j h1 (by omega))
  · intro oc f d; exact genImgAux_wait_count oc _ 10 1
  · intro oc f d i h; exact genImgAux_wait_eq oc _ 10 1 i h
  · intro m hm; simp [attemptWait, hm]
  · intro m hm; simp [attemptWait, hm]

/-- Witness for C4: a concrete always-429 outcome stream produces exactly
ten failed attempts with ten 30-second sleeps and no saved path. -/
theorem C4_witness :
    generate_image (fun _ => ImgOutcome.exn "429 RESOURCE_EXHAUSTED") "f.png" "out"
      = (none, List.replicate 10 30) :=
  (C4_image_retry (fun _ => ImgOutcome.exn "429 RESOURCE_EXHAUSTED") "f.png" "out"
    (fun j _ _ => ⟨"429 RESOURCE_EXHAUSTED", rfl, by decide⟩)).1

theorem pyStripL_empty_of_nil : (pyStripL []).isEmpty = true := rfl

theorem ne_nil_of_strip_ne (s : List Char) (h : (pyStripL s).isEmpty = false) :
    s ≠ [] := by
  intro hs; subst hs; simp [pyStripL] at h

theorem accumAux_scene_bound (B : Nat) :
    ∀ (sents : List (List Char)) (cc scene : List Char),
      scene ∈ accumAux B sents cc →
      scene.length ≤ B + 1 ∨ (∃ sent ∈ sents, scene = pyStripL sent) ∨
        scene = pyStripL cc := by
  intro sents
  induction sents with
  | nil =>
    intro cc scene hmem
    simp only [accumAux] at hmem
    by_cases hcc : cc.isEmpty
    · simp [hcc] at hmem
    · simp [hcc] at hmem
      exact Or.inr (Or.inr hmem)
  | cons s rest ih =>
    intro cc scene hmem
    simp only [accumAux] at hmem
    by_cases hblank : (pyStripL s).isEmpty
    · simp only [hblank, if_pos] at hmem
      rcases ih cc scene hmem with h | ⟨sent, hs, he⟩ | h
      · exact Or.inl h
      · exact Or.inr (Or.inl ⟨sent, List.mem_cons_of_mem _ hs, he⟩)
      · exact Or.inr (Or.inr h)
    · rw [if_neg hblank] at hmem
      by_cases hover : B < cc.length + s.length
      · rw [if_pos hover] at hmem
        rcases List.mem_append.mp hmem with hl | hr
        · by_cases hcc : cc.isEmpty
          · simp [hcc] at hl
          · simp [hcc] at hl
            exact Or.inr (Or.inr hl)
        · rcases ih s scene hr with h | ⟨sent, hs, he⟩ | h
          · exact Or.inl h
          · exact Or.inr (Or.inl ⟨sent, List.mem_cons_of_mem _ hs, he⟩)
          · exact Or.inr (Or.inl ⟨s, List.mem_cons_self _ _, h⟩)
      · rw [if_neg hover] at hmem
        rcases ih (cc ++ ' ' :: s) scene hmem with h | ⟨sent, hs, he⟩ | h
        · exact Or.inl h
        · exact Or.inr (Or.inl ⟨sent, List.mem_cons_of_mem _ hs, he⟩)
        · left
          have hlen : scene.length ≤ (cc ++ ' ' :: s).length := by
            rw [h]; exact pyStripL_length_le _
          simp only [List.length_append, List.length_cons] at hlen
          omega

theorem accumAux_ne_nil (B : Nat) :
    ∀ (sents : List (List Char)) (cc : List Char),
      (cc.isEmpty = false ∨ ∃ sent ∈ sents, (pyStripL sent).isEmpty = false) →
      accumAux B sents cc ≠ [] := by
  intro sents
  induction sents with
  | nil =>
    intro cc h
    rcases h with h | ⟨sent, hs, _⟩
    · simp [accumAux, h]
    · simp at hs
  | cons s rest ih =>
    intro cc h
    simp only [accumAux]
    by_cases hblank : (pyStripL s).isEmpty
    · rw [if_pos hblank]
      apply ih
      rcases h with h | ⟨sent, hs, hne⟩
      · exact Or.inl h
      · rcases List.mem_cons.mp hs with rfl | hs
        · rw [hblank] at hne; cases hne
        · exact Or.inr ⟨sent, hs, hne⟩
    · rw [if_neg hblank]
      by_cases hover : B < cc.length + s.length
      · rw [if_pos hover]
        have hs : s.isEmpty = false := by
          have := ne_nil_of_strip_ne s (by simpa using hblank)
          cases s with
          | nil => exact absurd rfl this
          | cons a t => rfl
        have := ih s (Or.inl hs)
        intro hcontra
        rcases List.append_eq_nil.mp hcontra with ⟨-, h2⟩
        exact this h2
      · rw [if_neg hover]
        apply ih
        left
        cases cc <;> rfl

theorem accumAux_keeps_oversized (B : Nat) :
    ∀ (sents : List (List Char)) (cc : List Char),
      B < cc.length → pyStripL cc ∈ accumAux B sents cc := by
  intro sents
  induction sents with
  | nil =>
    intro cc h
    have hcc : cc.isEmpty = false := by
      cases cc with
      | nil => simp at h
      | cons a t => rfl
    simp [accumAux, hcc]
  | cons s rest ih =>
    intro cc h
    have hcc : cc.isEmpty = false := by
      cases cc with
      | nil => simp at h
      | cons a t => rfl
    simp only [accumAux]
    by_cases hblank : (pyStripL s).isEmpty
    · rw [if_pos hblank]; exact ih cc h
    · rw [if_neg hblank, if_pos (by omega : B < cc.length + s.length), hcc]
      simp

theorem accumAux_long_sentence (B : Nat) :
    ∀ (sents : List (List Char)) (cc sent : List Char),
      sent ∈ sents → (pyStripL sent).isEmpty = false → B < sent.length →
      pyStripL sent ∈ accumAux B sents cc := by
  intro sents
  induction sents with
  | nil => intro cc sent hs _ _; simp at hs
  | cons s rest ih =>
    intro cc sent hs hne hlong
    simp only [accumAux]
    rcases List.mem_cons.mp hs with rfl | hs
    · rw [if_neg (by simp [hne]), if_pos (by omega : B < cc.length + sent.length)]
      exact List.mem_append.mpr (Or.inr (accumAux_keeps_oversized B rest sent hlong))
    · by_cases hblank : (pyStripL s).isEmpty
      · rw [if_pos hblank]; exact ih cc sent hs hne hlong
      · rw [if_neg hblank]
        by_cases hover : B < cc.length + s.length
        · rw [if_pos hover]
          exact List.mem_append.mpr (Or.inr (ih s sent hs hne hlong))
        · rw [if_neg hover]
          exact ih (cc ++ ' ' :: s) sent hs hne hlong

/-- The value of current_chunk when the loop of app.py lines 337-345 ends:
the final accumulated remainder of the rule-based character-budget split.
Mirrors exactly the accumulator updates of accumAux. -/
def finalChunk (B : Nat) : List (List Char) → List Char → List Char
  | [], cc => cc
  | s :: rest, cc =>
    if (pyStripL s).isEmpty then finalChunk B rest cc
    else if B < cc.length + s.length then finalChunk B rest s
    else finalChunk B rest (cc ++ ' ' :: s)

theorem accumAux_remainder (B : Nat) :
    ∀ (sents : List (List Char)) (cc : List Char),
      (finalChunk B sents cc).isEmpty = false →
      ∃ front, accumAux B sents cc = front ++ [pyStripL (finalChunk B sents cc)] := by
  intro sents
  induction sents with
  | nil =>
    intro cc h
    refine ⟨[], ?_⟩
    show (if cc.isEmpty then [] else [pyStripL cc]) = [] ++ [pyStripL cc]
    rw [if_neg (by simp [show cc.isEmpty = false from h]), List.nil_append]
  | cons s rest ih =>
    intro cc h
    by_cases hblank : (pyStripL s).isEmpty
    · have hfc : finalChunk B (s :: rest) cc = finalChunk B rest cc := by
        simp only [finalChunk]
        rw [if_pos hblank]
      have hacc : accumAux B (s :: rest) cc = accumAux B rest cc := by
        simp only [accumAux]
        rw [if_pos hblank]
      rw [hfc] at h ⊢
      rw [hacc]
      exact ih cc h
    · by_cases hover : B < cc.length + s.length
      · have hfc : finalChunk B (s :: rest) cc = finalChunk B rest s := by
          simp only [finalChunk]
          rw [if_neg hblank, if_pos hover]
        have hacc : accumAux B (s :: rest) cc
            = (if cc.isEmpty then [] else [pyStripL cc]) ++ accumAux B rest s := by
          simp only [accumAux]
          rw [if_neg hblank, if_pos hover]
        rw [hfc] at h ⊢
        rw [hacc]
        obtain ⟨front, hfront⟩ := ih s h
        exact ⟨(if cc.isEmpty then [] else [pyStripL cc]) ++ front,
          by rw [hfront, List.append_assoc]⟩
      · have hfc : finalChunk B (s :: rest) cc
            = finalChunk B rest (cc ++ ' ' :: s) := by
          simp only [finalChunk]
          rw [if_neg hblank, if_neg hover]
        have hacc : accumAux B (s :: rest) cc = accumAux B rest (cc ++ ' ' :: s) := by
          simp only [accumAux]
          rw [if_neg hblank, if_neg hover]
        rw [hfc] at h ⊢
        rw [hacc]
        exact ih (cc ++ ' ' :: s) h

set_option maxRecDepth 10000 in
/-- C1 counterexample: with budget 5, a script consisting of one sentence of
13 characters is emitted as a single scene of length 13 - the oversized
sentence is not hard-cut into pieces of length at most 5; and a script whose
three sentences all fit the budget still yields the scene aa. b. of length
6 = 5 + 1 (the greedy length test ignores the joining space), which is
neither within the budget nor a single input sentence, so the claim that
every emitted scene has length at most B except hard-cut pieces of an
oversized sentence is false. -/
theorem C1_counterexample :
    fallbackSplit "aaaaaaaaaaaa." 5 = ["aaaaaaaaaaaa."] ∧
    5 < "aaaaaaaaaaaa.".length ∧
    fallbackSplit "cccccc. aa. b." 5 = ["cccccc.", "aa. b."] ∧
    splitSentences "cccccc. aa. b." = ["cccccc.".data, "aa.".data, "b.".data] ∧
    "aa. b.".length = 5 + 1 ∧
    "aa.".length ≤ 5 ∧
    "b.".length ≤ 5 ∧
    "aa. b.".data ∉ splitSentences "cccccc. aa. b." := by
  have h1 : fallbackSplit "aaaaaaaaaaaa." 5 = ["aaaaaaaaaaaa."] := by
    simp [fallbackSplit, splitSentences, splitSentAux, accumAux, pyStripL, isSentEnd]
  have hsp : splitSentences "cccccc. aa. b."
      = ["cccccc.".data, "aa.".data, "b.".data] := by
    simp [splitSentences, splitSentAux, pyStripL, isSentEnd]
  have h2 : fallbackSplit "cccccc. aa. b." 5 = ["cccccc.", "aa. b."] := by
    rw [fallbackSplit, hsp]
    decide
  refine ⟨h1, by decide, h2, hsp, by decide, by decide, by decide, ?_⟩
  rw [hsp]
  decide

/-- C1 amended: every scene emitted by the rule-based character-budget split
either has length at most B + 1 (the greedy length test ignores the joining
space, so a one-character overflow can occur) or is a single stripped input
sentence emitted whole - an oversized sentence is kept intact as its own
scene, never hard-cut; when some sentence has non-blank content the split is
non-empty; every non-blank sentence longer than B appears stripped, as its
own scene, in the output; and whenever the loop ends with a non-empty
accumulated remainder, the output ends with exactly that remainder,
stripped, as its own final scene - the remainder is never dropped and never
merged into the previous scene. -/
theorem C1_budget_split_amended (s : String) (B : Nat) :
    (∀ scene ∈ fallbackSplit s B,
      scene.length ≤ B + 1 ∨
        ∃ sent ∈ splitSentences s, scene = String.mk (pyStripL sent)) ∧
    ((∃ sent ∈ splitSentences s, (pyStripL sent).isEmpty = false) →
      fallbackSplit s B ≠ []) ∧
    (∀ sent ∈ splitSentences s, (pyStripL sent).isEmpty = false →
      B < sent.length → String.mk (pyStripL sent) ∈ fallbackSplit s B) ∧
    ((finalChunk B (splitSentences s) []).isEmpty = false →
      ∃ front, fallbackSplit s B
        = front ++ [String.mk (pyStripL (finalChunk B (splitSentences s) []))]) := by
  refine ⟨?_, ?_, ?_, ?_⟩
  · intro scene hm
    rcases List.mem_map.mp hm with ⟨l, hl, rfl⟩
    rcases accumAux_scene_bound B (splitSentences s) [] l hl with h | ⟨sent, hs, he⟩ | h
    · left
      show l.length ≤ B + 1
      exact h
    · right; exact ⟨sent, hs, by rw [he]⟩
    · left
      show l.length ≤ B + 1
      rw [h, pyStripL_nil]
      simp
  · intro ⟨sent, hs, hne⟩
    have := accumAux_ne_nil B (splitSentences s) [] (Or.inr ⟨sent, hs, hne⟩)
    simp only [fallbackSplit, ne_eq, List.map_eq_nil_iff]
    exact this
  · intro sent hs hne hlong
    exact List.mem_map.mpr
      ⟨pyStripL sent, accumAux_long_sentence B (splitSentences s) [] sent hs hne hlong, rfl⟩
  · intro hfin
    obtain ⟨front, hfront⟩ := accumAux_remainder B (splitSentences s) [] hfin
    refine ⟨front.map String.mk, ?_⟩
    rw [fallbackSplit, hfront, List.map_append]
    rfl

set_option maxRecDepth 10000 in
/-- Witness for C1 amended on a concrete script with an oversized first
sentence, a short trailing sentence, and budget 5: the oversized sentence is
in the sentence list with non-blank content, the split output is non-empty,
contains the oversized sentence whole, and ends with the final accumulated
remainder bb. as its own scene. -/
theorem C1_witness :
    (∃ sent ∈ splitSentences "aaaaaaaaaaaa. bb.", (pyStripL sent).isEmpty = false) ∧
    fallbackSplit "aaaaaaaaaaaa. bb." 5 ≠ [] ∧
    String.mk (pyStripL "aaaaaaaaaaaa.".data) ∈ fallbackSplit "aaaaaaaaaaaa. bb." 5 ∧
    (finalChunk 5 (splitSentences "aaaaaaaaaaaa. bb.") []).isEmpty = false ∧
    (∃ front, fallbackSplit "aaaaaaaaaaaa. bb." 5
      = front ++ [String.mk (pyStripL
          (finalChunk 5 (splitSentences "aaaaaaaaaaaa. bb.") []))]) := by
  have hsp : splitSentences "aaaaaaaaaaaa. bb." = ["aaaaaaaaaaaa.".data, "bb.".data] := by
    simp [splitSentences, splitSentAux, pyStripL, isSentEnd]
  have hmem : "aaaaaaaaaaaa.".data ∈ splitSentences "aaaaaaaaaaaa. bb." := by
    rw [hsp]; exact List.mem_cons_self _ _
  have hne : (pyStripL "aaaaaaaaaaaa.".data).isEmpty = false := by decide
  have hex : ∃ sent ∈ splitSentences "aaaaaaaaaaaa. bb.", (pyStripL sent).isEmpty = false :=
    ⟨"aaaaaaaaaaaa.".data, hmem, hne⟩
  have hfin : (finalChunk 5 (splitSentences "aaaaaaaaaaaa. bb.") []).isEmpty = false := by
    rw [hsp]
    decide
  refine ⟨hex, (C1_budget_split_amended "aaaaaaaaaaaa. bb." 5).2.1 hex,
    (C1_budget_split_amended "aaaaaaaaaaaa. bb." 5).2.2.1 "aaaaaaaaaaaa.".data hmem hne
      (by decide),
    hfin,
    (C1_budget_split_amended "aaaaaaaaaaaa. bb." 5).2.2.2 hfin⟩

theorem digitChar_not_illegal (d : Nat) (hd : d < 10) :
    isIllegalChar (digitChar d) = false := by
  interval_cases d <;> decide

theorem natDigits_not_illegal (n : Nat) :
    ∀ c ∈ natDigits n, isIllegalChar c = false := by
  induction n using Nat.strong_induction_on with
  | _ n ih =>
    rw [natDigits]
    split
    · simp
    · intro c hc
      rcases List.mem_append.mp hc with h | h
      · exact ih (n / 10)
          (Nat.div_lt_self (Nat.pos_of_ne_zero (by assumption)) (by decide)) c h
      · rcases List.mem_singleton.mp h with rfl
        exact digitChar_not_illegal _ (Nat.mod_lt _ (by decide))

theorem natRepr_not_illegal (n : Nat) :
    ∀ c ∈ natRepr n, isIllegalChar c = false := by
  intro c hc
  unfold natRepr at hc
  split at hc
  · rcases List.mem_singleton.mp hc with rfl; decide
  · exact natDigits_not_illegal n c hc

theorem pad3_not_illegal (n : Nat) : ∀ c ∈ pad3 n, isIllegalChar c = false := by
  intro c hc
  rcases List.mem_append.mp hc with h | h
  · rcases List.eq_of_mem_replicate h with rfl; decide
  · exact natRepr_not_illegal n c h

theorem wordsAux_chars :
    ∀ (l cur w : List Char), w ∈ wordsAux l cur → ∀ c ∈ w, c ∈ l ∨ c ∈ cur := by
  intro l
  induction l with
  | nil =>
    intro cur w hw c hc
    simp only [wordsAux] at hw
    split at hw
    · simp at hw
    · rcases List.mem_singleton.mp hw with rfl
      exact Or.inr (List.mem_reverse.mp hc)
  | cons x xs ih =>
    intro cur w hw c hc
    simp only [wordsAux] at hw
    by_cases hws : x.isWhitespace
    · rw [if_pos hws] at hw
      split at hw
      · rcases ih [] w hw c hc with h | h
        · exact Or.inl (List.mem_cons_of_mem _ h)
        · simp at h
      · rcases List.mem_cons.mp hw with rfl | hw
        · exact Or.inr (List.mem_reverse.mp hc)
        · rcases ih [] w hw c hc with h | h
          · exact Or.inl (List.mem_cons_of_mem _ h)
          · simp at h
    · rw [if_neg hws] at hw
      rcases ih (x :: cur) w hw c hc with h | h
      · exact Or.inl (List.mem_cons_of_mem _ h)
      · rcases List.mem_cons.mp h with rfl | h
        · exact Or.inl (List.mem_cons_self _ _)
        · exact Or.inr h

theorem wordsOf_chars (l w : List Char) (hw : w ∈ wordsOf l) :
    ∀ c ∈ w, c ∈ l := by
  intro c hc
  rcases wordsAux_chars l [] w hw c hc with h | h
  · exact h
  · simp at h

theorem joinSpace_chars :
    ∀ (parts : List (List Char)) (c : Char), c ∈ joinSpace parts →
      c = ' ' ∨ ∃ w ∈ parts, c ∈ w := by
  intro parts
  induction parts with
  | nil => intro c hc; simp [joinSpace] at hc
  | cons w ws ih =>
    intro c hc
    cases ws with
    | nil =>
      simp only [joinSpace] at hc
      exact Or.inr ⟨w, List.mem_singleton.mpr rfl, hc⟩
    | cons w2 ws2 =>
      simp only [joinSpace] at hc
      rcases List.mem_append.mp hc with h | h
      · exact Or.inr ⟨w, List.mem_cons_self _ _, h⟩
      · rcases List.mem_cons.mp h with rfl | h
        · exact Or.inl rfl
        · rcases ih c h with h | ⟨w3, hw3, hc3⟩
          · exact Or.inl h
          · exact Or.inr ⟨w3, List.mem_cons_of_mem _ hw3, hc3⟩

theorem cleanedChunk_not_illegal (t : String) :
    ∀ c ∈ cleanedChunk t, isIllegalChar c = false := by
  intro c hc
  have := List.of_mem_filter hc
  simpa using this

theorem summaryOf_chars (t : String) :
    ∀ c ∈ summaryOf t, c = ' ' ∨ c = '.' ∨ c ∈ cleanedChunk t := by
  intro c hc
  unfold summaryOf at hc
  split at hc
  · rcases joinSpace_chars _ c hc with h | ⟨w, hw, hcw⟩
    · exact Or.inl h
    · exact Or.inr (Or.inr (wordsOf_chars _ w hw c hcw))
  · rcases List.mem_append.mp hc with h | h
    · rcases joinSpace_chars _ c h with h | ⟨w, hw, hcw⟩
      · exact Or.inl h
      · exact Or.inr (Or.inr
          (wordsOf_chars _ w (List.mem_of_mem_take hw) c hcw))
    · rcases List.mem_cons.mp h with rfl | h
      · exact Or.inr (Or.inl rfl)
      · rcases List.mem_cons.mp h with rfl | h
        · exact Or.inr (Or.inl rfl)
        · rcases List.mem_cons.mp h with rfl | h
          · exact Or.inr (Or.inl rfl)
          · rcases joinSpace_chars _ c h with h | ⟨w, hw, hcw⟩
            · exact Or.inl h
            · exact Or.inr (Or.inr
                (wordsOf_chars _ w (List.mem_of_mem_drop hw) c hcw))

/-- C9: the filename builder is a pure function of the scene number and
scene text whose output never contains a path-illegal character; the name is
the letter S, the zero-padded scene number, an underscore, the summary, and
the png extension, where the summary joins all words of the cleaned text
when there are at most six and otherwise joins the first three words, an
ellipsis, and the last three words. -/
theorem C9_filename_builder (n : Nat) (t : String) :
    (∀ c ∈ (make_filename n t).data, isIllegalChar c = false) ∧
    ((wordsOf (cleanedChunk t)).length ≤ 6 →
      make_filename n t = String.mk ('S' :: pad3 n ++ '_' ::
        joinSpace (wordsOf (cleanedChunk t)) ++ ['.', 'p', 'n', 'g'])) ∧
    (6 < (wordsOf (cleanedChunk t)).length →
      make_filename n t = String.mk ('S' :: pad3 n ++ '_' ::
        (joinSpace ((wordsOf (cleanedChunk t)).take 3) ++ '.' :: '.' :: '.' ::
          joinSpace ((wordsOf (cleanedChunk t)).drop
            ((wordsOf (cleanedChunk t)).length - 3))) ++ ['.', 'p', 'n', 'g'])) := by
  refine ⟨?_, ?_, ?_⟩
  · intro c hc
    show isIllegalChar c = false
    simp only [make_filename] at hc
    rcases List.mem_append.mp hc with h | h
    · rcases List.mem_append.mp h with h | h
      · rcases List.mem_cons.mp h with rfl | h
        · decide
        · exact pad3_not_illegal n c h
      · rcases List.mem_cons.mp h with rfl | h
        · decide
        · rcases summaryOf_chars t c h with rfl | rfl | h
          · decide
          · decide
          · exact cleanedChunk_not_illegal t c h
    · rcases List.mem_cons.mp h with rfl | h
      · decide
      · rcases List.mem_cons.mp h with rfl | h
        · decide
        · rcases List.mem_cons.mp h with rfl | h
          · decide
          · rcases List.mem_singleton.mp h with rfl
            decide
  · intro hle
    simp only [make_filename, summaryOf, if_pos hle]
  · intro hgt
    simp only [make_filename, summaryOf, if_neg (Nat.not_le.mpr hgt)]

/-- Witness for C9 at scene 3 and a two-word text, evaluating the name. -/
theorem C9_witness :
    (wordsOf (cleanedChunk "hello world")).length ≤ 6 ∧
    make_filename 3 "hello world" = "S003_hello world.png" := by
  have hle : (wordsOf (cleanedChunk "hello world")).length ≤ 6 := by decide
  refine ⟨hle, ?_⟩
  rw [(C9_filename_builder 3 "hello world").2.1 hle]
  have hp : pad3 3 = ['0', '0', '3'] := by
    simp [pad3, natRepr, natDigits, digitChar]
  rw [hp]
  decide

theorem wordsAux_append_ws (c : Char) (hc : c.isWhitespace = true) :
    ∀ (a cur b : List Char),
      wordsAux (a ++ c :: b) cur = wordsAux a cur ++ wordsOf b := by
  intro a
  induction a with
  | nil =>
    intro cur b
    simp only [List.nil_append, wordsAux, hc, if_pos, wordsOf]
    split <;> simp
  | cons x xs ih =>
    intro cur b
    simp only [List.cons_append, wordsAux]
    by_cases hx : x.isWhitespace
    · rw [if_pos hx, if_pos hx]
      by_cases hcur : cur.isEmpty
      · rw [if_pos hcur, if_pos hcur]
        simp only [List.append_eq]
        rw [ih]
      · rw [if_neg hcur, if_neg hcur]
        simp only [List.append_eq]
        rw [ih, List.cons_append]
    · rw [if_neg hx, if_neg hx]
      simp only [List.append_eq]
      rw [ih]

theorem wordsOf_joinSpace (parts : List (List Char)) :
    wordsOf (joinSpace parts) = (parts.map wordsOf).flatten := by
  induction parts with
  | nil => rfl
  | cons w ws ih =>
    cases ws with
    | nil => simp [joinSpace, wordsOf]
    | cons w2 ws2 =>
      show wordsOf (w ++ ' ' :: joinSpace (w2 :: ws2)) = _
      rw [show wordsOf (w ++ ' ' :: joinSpace (w2 :: ws2))
          = wordsAux (w ++ ' ' :: joinSpace (w2 :: ws2)) [] from rfl]
      rw [wordsAux_append_ws ' ' (by decide) w [] (joinSpace (w2 :: ws2))]
      rw [show wordsAux w [] = wordsOf w from rfl, ih]
      simp

theorem splitNLAux_words :
    ∀ (l cur : List Char),
      ((splitNLAux l cur).map wordsOf).flatten = wordsAux (cur.reverse ++ l) [] := by
  intro l
  induction l with
  | nil =>
    intro cur
    simp [splitNLAux, wordsOf]
  | cons c cs ih =>
    intro cur
    simp only [splitNLAux]
    by_cases hnl : c = '\n'
    · subst hnl
      rw [if_pos rfl]
      simp only [List.map_cons, List.flatten_cons]
      rw [ih []]
      simp only [List.reverse_nil, List.nil_append]
      rw [wordsAux_append_ws '\n' (by decide) cur.reverse []]
      rfl
    · rw [if_neg hnl, ih (c :: cur)]
      simp only [List.reverse_cons, List.append_assoc, List.cons_append, List.nil_append]

theorem splitNL_words (l : List Char) :
    ((splitNL l).map wordsOf).flatten = wordsOf l := by
  rw [splitNL, splitNLAux_words l []]
  rfl

theorem wordsAux_all_ws :
    ∀ (ws cur : List Char), (∀ c ∈ ws, c.isWhitespace = true) →
      wordsAux ws cur = if cur.isEmpty then [] else [cur.reverse] := by
  intro ws
  induction ws with
  | nil => intro cur _; rfl
  | cons c rest ih =>
    intro cur hall
    have hc : c.isWhitespace = true := hall c (List.mem_cons_self _ _)
    simp only [wordsAux, hc, if_pos]
    have hrest := ih [] (fun d hd => hall d (List.mem_cons_of_mem _ hd))
    by_cases hcur : cur.isEmpty
    · rw [if_pos hcur, if_pos hcur]
      rw [ih [] (fun d hd => hall d (List.mem_cons_of_mem _ hd))]
      rfl
    · rw [if_neg hcur, if_neg hcur]
      rw [ih [] (fun d hd => hall d (List.mem_cons_of_mem _ hd))]
      rfl

theorem wordsAux_append_all_ws :
    ∀ (l cur ws : List Char), (∀ c ∈ ws, c.isWhitespace = true) →
      wordsAux (l ++ ws) cur = wordsAux l cur := by
  intro l
  induction l with
  | nil =>
    intro cur ws hall
    rw [List.nil_append, wordsAux_all_ws ws cur hall]
    rfl
  | cons x xs ih =>
    intro cur ws hall
    simp only [List.cons_append, wordsAux]
    by_cases hx : x.isWhitespace
    · rw [if_pos hx, if_pos hx]
      by_cases hcur : cur.isEmpty
      · rw [if_pos hcur, if_pos hcur]
        simp only [List.append_eq]
        rw [ih [] ws hall]
      · rw [if_neg hcur, if_neg hcur]
        simp only [List.append_eq]
        rw [ih [] ws hall]
    · rw [if_neg hx, if_neg hx]
      simp only [List.append_eq]
      rw [ih (x :: cur) ws hall]

theorem wordsOf_dropWhile_ws (l : List Char) :
    wordsOf (l.dropWhile Char.isWhitespace) = wordsOf l := by
  induction l with
  | nil => rfl
  | cons c cs ih =>
    by_cases hc : c.isWhitespace
    · rw [List.dropWhile_cons_of_pos hc, ih]
      show wordsOf cs = wordsAux (c :: cs) []
      simp [wordsAux, hc, wordsOf]
    · rw [List.dropWhile_cons_of_neg (by simp [hc])]

theorem mem_takeWhile_ws (l : List Char) :
    ∀ c ∈ l.takeWhile Char.isWhitespace, c.isWhitespace = true := by
  induction l with
  | nil => intro c hc; simp [List.takeWhile] at hc
  | cons x xs ih =>
    intro c hc
    by_cases hx : x.isWhitespace
    · rw [List.takeWhile_cons_of_pos hx] at hc
      rcases List.mem_cons.mp hc with rfl | hc
      · exact hx
      · exact ih c hc
    · rw [List.takeWhile_cons_of_neg (by simp [hx])] at hc
      simp at hc

theorem wordsOf_rstrip (m : List Char) :
    wordsOf ((m.reverse.dropWhile Char.isWhitespace).reverse) = wordsOf m := by
  have hdecomp : m = (m.reverse.dropWhile Char.isWhitespace).reverse
      ++ (m.reverse.takeWhile Char.isWhitespace).reverse := by
    calc m = m.reverse.reverse := by rw [List.reverse_reverse]
      _ = (m.reverse.takeWhile Char.isWhitespace
            ++ m.reverse.dropWhile Char.isWhitespace).reverse := by
          rw [List.takeWhile_append_dropWhile]
      _ = _ := by rw [List.reverse_append]
  have hws : ∀ c ∈ (m.reverse.takeWhile Char.isWhitespace).reverse,
      c.isWhitespace = true := by
    intro c hc
    exact mem_takeWhile_ws _ c (List.mem_reverse.mp hc)
  conv_rhs => rw [hdecomp]
  exact (wordsAux_append_all_ws _ [] _ hws).symm

theorem wordsOf_pyStripL (l : List Char) : wordsOf (pyStripL l) = wordsOf l := by
  unfold pyStripL
  rw [wordsOf_rstrip, wordsOf_dropWhile_ws]

theorem wordsAux_words_ne_nil :
    ∀ (l cur w : List Char), w ∈ wordsAux l cur → w ≠ [] := by
  intro l
  induction l with
  | nil =>
    intro cur w hw
    simp only [wordsAux] at hw
    split at hw
    · simp at hw
    · rcases List.mem_singleton.mp hw with rfl
      intro hcontra
      rename_i hcur
      rw [← List.reverse_reverse cur, hcontra] at hcur
      simp at hcur
  | cons x xs ih =>
    intro cur w hw
    simp only [wordsAux] at hw
    by_cases hx : x.isWhitespace
    · rw [if_pos hx] at hw
      split at hw
      · exact ih [] w hw
      · rcases List.mem_cons.mp hw with rfl | hw
        · intro hcontra
          rename_i hcur
          rw [← List.reverse_reverse cur, hcontra] at hcur
          simp at hcur
        · exact ih [] w hw
    · rw [if_neg hx] at hw
      exact ih (x :: cur) w hw

theorem wordsAux_ne_nil_of_content :
    ∀ (l cur : List Char),
      ((∃ c ∈ l, c.isWhitespace = false) ∨ cur ≠ []) → wordsAux l cur ≠ [] := by
  intro l
  induction l with
  | nil =>
    intro cur h
    rcases h with ⟨c, hc, -⟩ | h
    · simp at hc
    · have hcf : cur.isEmpty = false := by
        cases cur with
        | nil => exact absurd rfl h
        | cons a t => rfl
      simp [wordsAux, hcf]
  | cons x xs ih =>
    intro cur h
    simp only [wordsAux]
    by_cases hx : x.isWhitespace
    · rw [if_pos hx]
      split
      · apply ih
        left
        rcases h with ⟨c, hc, hcw⟩ | h
        · rcases List.mem_cons.mp hc with rfl | hc
          · rw [hx] at hcw; cases hcw
          · exact ⟨c, hc, hcw⟩
        · rename_i hcur
          cases cur with
          | nil => exact absurd rfl h
          | cons a t => simp at hcur
      · simp
    · rw [if_neg hx]
      apply ih
      right
      simp

theorem joinSpace_ne_nil (ws : List (List Char)) (w : List Char)
    (hw : w ∈ ws) (hne : ∀ v ∈ ws, v ≠ []) : joinSpace ws ≠ [] := by
  cases ws with
  | nil => simp at hw
  | cons v vs =>
    cases vs with
    | nil =>
      show v ≠ []
      exact hne v (List.mem_cons_self _ _)
    | cons v2 vs2 =>
      show v ++ ' ' :: joinSpace (v2 :: vs2) ≠ []
      simp

theorem sceneText_isEmpty_false (acc : List (List Char)) (l : List Char)
    (hl : l ∈ acc) (hwords : wordsOf l ≠ []) : (sceneText acc).isEmpty = false := by
  have hjw : wordsOf (joinSpace acc) = (acc.map wordsOf).flatten := wordsOf_joinSpace acc
  have hmemflat : ∀ w ∈ (acc.map wordsOf).flatten, w ≠ [] := by
    intro w hw
    rcases List.mem_flatten.mp hw with ⟨ws, hws, hwmem⟩
    rcases List.mem_map.mp hws with ⟨x, -, rfl⟩
    exact wordsAux_words_ne_nil x [] w hwmem
  have hflatne : (acc.map wordsOf).flatten ≠ [] := by
    intro hcontra
    apply hwords
    have : wordsOf l ∈ acc.map wordsOf := List.mem_map.mpr ⟨l, hl, rfl⟩
    rw [List.flatten_eq_nil_iff] at hcontra
    exact hcontra (wordsOf l) this
  have : joinSpace (wordsOf (joinSpace acc)) ≠ [] := by
    rw [hjw]
    rcases List.exists_mem_of_ne_nil _ hflatne with ⟨w, hwmem⟩
    exact joinSpace_ne_nil _ w hwmem hmemflat
  unfold sceneText collapseWSL
  cases hcase : joinSpace (wordsOf (joinSpace acc)) with
  | nil => exact absurd hcase this
  | cons a t => rfl

theorem matchMarker_nil : matchMarker [] = none := rfl

theorem matchMarker_isEmpty_false (m r : List Char)
    (hm : matchMarker (pyStripL m) = some r) : (pyStripL m).isEmpty = false := by
  cases hc : pyStripL m with
  | nil => rw [hc, matchMarker_nil] at hm; cases hm
  | cons a t => rfl

theorem parseLoop_preamble :
    ∀ (pre ls acc : List (List Char)),
      (∀ l ∈ pre, matchMarker (pyStripL l) = none) →
      parseLoop (pre ++ ls) acc
        = parseLoop ls (acc ++ (pre.map pyStripL).filter (fun w => !w.isEmpty)) := by
  intro pre
  induction pre with
  | nil => intro ls acc _; simp
  | cons l pre ih =>
    intro ls acc hall
    have hl : matchMarker (pyStripL l) = none := hall l (List.mem_cons_self _ _)
    simp only [List.cons_append, parseLoop]
    by_cases he : (pyStripL l).isEmpty
    · rw [if_pos he]
      simp only [List.append_eq]
      rw [ih ls acc (fun x hx => hall x (List.mem_cons_of_mem _ hx))]
      congr 2
      simp [List.filter_cons, he]
    · rw [if_neg he]
      simp only [hl, List.append_eq]
      rw [ih ls (acc ++ [pyStripL l])
        (fun x hx => hall x (List.mem_cons_of_mem _ hx))]
      congr 1
      simp [List.filter_cons, he]

theorem parseLoop_marker (m r : List Char) (ls acc : List (List Char))
    (hm : matchMarker (pyStripL m) = some r) :
    parseLoop (m :: ls) acc
      = emitScene acc
        ++ parseLoop ls (if (pyStripL r).isEmpty then [] else [pyStripL r]) := by
  have hne := matchMarker_isEmpty_false m r hm
  simp only [parseLoop, hne, hm, Bool.false_eq_true, if_false]

theorem flatten_words_filter (ls : List (List Char)) :
    ((ls.filter (fun w => !w.isEmpty)).map wordsOf).flatten
      = (ls.map wordsOf).flatten := by
  induction ls with
  | nil => rfl
  | cons w ws ih =>
    by_cases he : w.isEmpty
    · have hw : w = [] := by
        cases w with
        | nil => rfl
        | cons a t => simp at he
      subst hw
      simp only [List.filter_cons, List.map_cons, List.flatten_cons]
      simpa [wordsOf, wordsAux] using ih
    · simp only [List.filter_cons, he, List.map_cons, List.flatten_cons]
      simp only [Bool.not_false, if_pos]
      rw [List.map_cons, List.flatten_cons, ih]

theorem sceneText_all_lines (t : List Char) :
    sceneText (((splitNL t).map pyStripL).filter (fun w => !w.isEmpty))
      = collapseWSL t := by
  unfold sceneText collapseWSL
  rw [wordsOf_joinSpace, flatten_words_filter, List.map_map]
  have hmap : (splitNL t).map (wordsOf ∘ pyStripL) = (splitNL t).map wordsOf := by
    apply List.map_congr_left
    intro x _
    exact wordsOf_pyStripL x
  rw [hmap, splitNL_words]

/-- C10: when the lines before the first numbered marker carry non-blank
content, parse_numbered_script emits that preamble (the non-blank stripped
lines joined with spaces, whitespace runs collapsed) as an additional first
scene preceding the scenes parsed from the marker onward; and a script with
no marker line and some non-whitespace character yields exactly one scene
holding the whole script's collapsed text. -/
theorem C10_numbered_preamble :
    (∀ (script : String) (pre : List (List Char)) (m : List Char)
        (rest : List (List Char)) (r : List Char),
      splitNL (pyStripL script.data) = pre ++ m :: rest →
      (∀ l ∈ pre, matchMarker (pyStripL l) = none) →
      (∃ l ∈ pre, ∃ c ∈ l, c.isWhitespace = false) →
      matchMarker (pyStripL m) = some r →
      parse_numbered_script script
        = String.mk (sceneText ((pre.map pyStripL).filter (fun w => !w.isEmpty)))
          :: (parseLoop rest
                (if (pyStripL r).isEmpty then [] else [pyStripL r])).map String.mk) ∧
    (∀ script : String,
      (∀ l ∈ splitNL (pyStripL script.data), matchMarker (pyStripL l) = none) →
      (∃ c ∈ script.data, c.isWhitespace = false) →
      parse_numbered_script script = [String.mk (collapseWSL script.data)]) := by
  constructor
  · intro script pre m rest r hsplit hmk hcontent hm
    unfold parse_numbered_script
    rw [hsplit, parseLoop_preamble pre (m :: rest) [] hmk, List.nil_append,
      parseLoop_marker m r rest _ hm]
    obtain ⟨l, hl, c, hc, hcw⟩ := hcontent
    have hwl : wordsOf l ≠ [] :=
      wordsAux_ne_nil_of_content l [] (Or.inl ⟨c, hc, hcw⟩)
    have hwpl : wordsOf (pyStripL l) ≠ [] := by rw [wordsOf_pyStripL]; exact hwl
    have hplne : (pyStripL l).isEmpty = false := by
      cases hcase : pyStripL l with
      | nil => exact absurd (by rw [hcase]; rfl) hwpl
      | cons a t => rfl
    have hmem : pyStripL l ∈ (pre.map pyStripL).filter (fun w => !w.isEmpty) :=
      List.mem_filter.mpr ⟨List.mem_map.mpr ⟨l, hl, rfl⟩, by simp [hplne]⟩
    have hscene : (sceneText ((pre.map pyStripL).filter
        (fun w => !w.isEmpty))).isEmpty = false :=
      sceneText_isEmpty_false _ (pyStripL l) hmem hwpl
    rw [show emitScene ((pre.map pyStripL).filter (fun w => !w.isEmpty))
        = [sceneText ((pre.map pyStripL).filter (fun w => !w.isEmpty))] by
      unfold emitScene
      rw [if_neg (by simp [hscene])]]
    simp
  · intro script hmk hcontent
    unfold parse_numbered_script
    rw [← List.append_nil (splitNL (pyStripL script.data)),
      parseLoop_preamble _ [] [] hmk, List.nil_append]
    show (emitScene _).map String.mk = _
    have hval : sceneText ((((splitNL (pyStripL script.data))).map pyStripL).filter
        (fun w => !w.isEmpty)) = collapseWSL script.data := by
      rw [sceneText_all_lines]
      unfold collapseWSL
      rw [wordsOf_pyStripL]
    have hwords : wordsOf script.data ≠ [] :=
      wordsAux_ne_nil_of_content script.data [] (Or.inl hcontent)
    have hcw : collapseWSL script.data ≠ [] := by
      obtain ⟨w, hw⟩ := List.exists_mem_of_ne_nil _ hwords
      exact joinSpace_ne_nil _ w hw (fun v hv => wordsAux_words_ne_nil _ [] v hv)
    have hscene : (sceneText ((((splitNL (pyStripL script.data))).map pyStripL).filter
        (fun w => !w.isEmpty))).isEmpty = false := by
      rw [hval]
      cases hcase : collapseWSL script.data with
      | nil => exact absurd hcase hcw
      | cons a t => rfl
    unfold emitScene
    rw [if_neg (by simp [hscene]), hval]
    rfl

/-- Witness for C10: a script with a two-line preamble before the first
marker keeps the preamble as the first scene, and a script without markers
collapses to a single scene. -/
theorem C10_witness :
    parse_numbered_script "intro line\nmore intro\n1. Alpha\nrest\n2. Beta"
      = ["intro line more intro", "Alpha rest", "Beta"] ∧
    parse_numbered_script "no markers here\njust text"
      = ["no markers here just text"] := by
  constructor
  · have h := C10_numbered_preamble.1 "intro line\nmore intro\n1. Alpha\nrest\n2. Beta"
      ["intro line".data, "more intro".data] "1. Alpha".data
      ["rest".data, "2. Beta".data] " Alpha".data
      (by decide) (by decide)
      (by decide) (by decide)
    rw [h]
    decide
  · have h := C10_numbered_preamble.2 "no markers here\njust text"
      (by decide) (by decide)
    rw [h]
    decide

theorem concatAll_nil : concatAll [] = "" := rfl

theorem concatAll_cons (x : String) (t : List String) :
    concatAll (x :: t) = x ++ concatAll t := rfl

theorem concatAll_append_singleton (xs : List String) (e : String) :
    concatAll (xs ++ [e]) = concatAll xs ++ e := by
  induction xs with
  | nil =>
    rw [List.nil_append, concatAll_cons, concatAll_nil,
      String.append_empty, String.empty_append]
  | cons x xs ih =>
    rw [List.cons_append, concatAll_cons, concatAll_cons, ih, String.append_assoc]

theorem concatAll_reverse_cons (e : String) (ws : List String) :
    concatAll ((e :: ws).reverse) = concatAll ws.reverse ++ e := by
  rw [List.reverse_cons, concatAll_append_singleton]

theorem smallLoop_zero (si : Nat) : smallLoop 0 si = some [] := by
  rw [smallLoop]
  rfl

theorem smallLoop_step_pos (sp si : Nat) (h : sp ≠ 0) (hd : 0 < sp % 10)
    (u ch : String) (hu : units.get? si = some u)
    (hch : num_chars.get? (sp % 10) = some ch)
    (ws : List String) (hws : smallLoop (sp / 10) (si + 1) = some ws) :
    smallLoop sp si
      = some (((if sp % 10 = 1 ∧ 0 < si then "" else ch) ++ u) :: ws) := by
  rw [smallLoop]
  simp only [dif_neg h, hd, if_pos, hu, hch, hws]

theorem smallLoop_step_zero (sp si : Nat) (h : sp ≠ 0) (hd : sp % 10 = 0)
    (ws : List String) (hws : smallLoop (sp / 10) (si + 1) = some ws) :
    smallLoop sp si = some ws := by
  rw [smallLoop]
  simp [dif_neg h, hd, hws]

theorem specGroupJoin_zero (si : Nat) : specGroupJoin 0 si = "" := by
  rw [specGroupJoin]
  rfl

theorem specGroupJoin_step (sp si : Nat) (h : sp ≠ 0) :
    specGroupJoin sp si
      = specGroupJoin (sp / 10) (si + 1) ++ specDigitWord (sp % 10) si := by
  rw [specGroupJoin]
  simp [h]

theorem smallLoop_spec :
    ∀ (sp si : Nat), sp < 10 ^ (4 - si) →
      ∃ ws, smallLoop sp si = some ws ∧ concatAll ws.reverse = specGroupJoin sp si := by
  intro sp
  induction sp using Nat.strong_induction_on with
  | _ sp ih =>
    intro si hsp
    by_cases hz : sp = 0
    · subst hz
      exact ⟨[], smallLoop_zero si, by rw [specGroupJoin_zero]; rfl⟩
    · have hpos : 0 < sp := Nat.pos_of_ne_zero hz
      have hsi : si ≤ 3 := by
        by_contra hgt
        push_neg at hgt
        have h40 : 4 - si = 0 := by omega
        rw [h40, pow_zero] at hsp
        omega
      have hdiv : sp / 10 < 10 ^ (4 - (si + 1)) := by
        have h1 : 4 - si = (4 - (si + 1)) + 1 := by omega
        rw [h1, pow_succ] at hsp
        exact (Nat.div_lt_iff_lt_mul (by decide : 0 < 10)).mpr hsp
      obtain ⟨ws, hws, hcat⟩ :=
        ih (sp / 10) (Nat.div_lt_self hpos (by decide)) (si + 1) hdiv
      have hdig : sp % 10 < 10 := Nat.mod_lt _ (by decide)
      by_cases hd : 0 < sp % 10
      · have hu : units.get? si = some (units.getD si "") := by
          interval_cases si <;> rfl
        have hch : num_chars.get? (sp % 10) = some (num_chars.getD (sp % 10) "") := by
          interval_cases h : (sp % 10) <;> rfl
        refine ⟨((if sp % 10 = 1 ∧ 0 < si then "" else num_chars.getD (sp % 10) "")
            ++ units.getD si "") :: ws,
          smallLoop_step_pos sp si hz hd _ _ hu hch ws hws, ?_⟩
        have hsdw : specDigitWord (sp % 10) si
            = (if sp % 10 = 1 ∧ 0 < si then "" else num_chars.getD (sp % 10) "")
              ++ units.getD si "" := by
          unfold specDigitWord
          rw [if_neg (by omega)]
        rw [concatAll_reverse_cons, hcat, specGroupJoin_step sp si hz, hsdw]
      · have hd0 : sp % 10 = 0 := by omega
        refine ⟨ws, smallLoop_step_zero sp si hz hd0 ws hws, ?_⟩
        rw [hcat, specGroupJoin_step sp si hz, hd0]
        unfold specDigitWord
        rw [if_pos rfl, String.append_empty]

theorem bigLoop_zero (i : Nat) : bigLoop 0 i = some [] := by
  rw [bigLoop]
  rfl

theorem bigLoop_step_pos (n i : Nat) (h : n ≠ 0) (hg : 0 < n % 10000)
    (sr : List String) (hsr : smallLoop (n % 10000) 0 = some sr)
    (bu : String) (hbu : big_units.get? i = some bu) :
    bigLoop n i = (bigLoop (n / 10000) (i + 1)).map
      (fun rest => (concatAll sr.reverse ++ bu) :: rest) := by
  have hbu2 : big_units[i]? = some bu := by
    rw [← List.get?_eq_getElem?]
    exact hbu
  rw [bigLoop]
  cases hrec : bigLoop (n / 10000) (i + 1) <;>
    simp [dif_neg h, hg, hsr, hbu, hbu2, hrec]

theorem bigLoop_step_nounit (n i : Nat) (h : n ≠ 0) (hg : 0 < n % 10000)
    (sr : List String) (hsr : smallLoop (n % 10000) 0 = some sr)
    (hbu : big_units.get? i = none) :
    bigLoop n i = none := by
  have hbu2 : big_units[i]? = none := by
    rw [← List.get?_eq_getElem?]
    exact hbu
  rw [bigLoop]
  cases hrec : bigLoop (n / 10000) (i + 1) <;>
    simp [dif_neg h, hg, hsr, hbu, hbu2, hrec]

theorem bigLoop_step_zero (n i : Nat) (h : n ≠ 0) (hg : n % 10000 = 0) :
    bigLoop n i = bigLoop (n / 10000) (i + 1) := by
  rw [bigLoop]
  cases hrec : bigLoop (n / 10000) (i + 1) <;>
    simp [dif_neg h, hg, hrec]

theorem specBig_zero (i : Nat) : specBig 0 i = some "" := by
  rw [specBig]
  rfl

theorem specBig_step_recnone (n i : Nat) (h : n ≠ 0)
    (hrec : specBig (n / 10000) (i + 1) = none) : specBig n i = none := by
  rw [specBig]
  simp [dif_neg h, hrec]

theorem specBig_step_pos (n i : Nat) (h : n ≠ 0) (hg : 0 < n % 10000)
    (rest : String) (hrec : specBig (n / 10000) (i + 1) = some rest)
    (bu : String) (hbu : big_units.get? i = some bu) :
    specBig n i = some (rest ++ (specGroupJoin (n % 10000) 0 ++ bu)) := by
  have hbu2 : big_units[i]? = some bu := by
    rw [← List.get?_eq_getElem?]
    exact hbu
  rw [specBig]
  simp [dif_neg h, hg, hrec, hbu, hbu2]

theorem specBig_step_pos_nounit (n i : Nat) (h : n ≠ 0) (hg : 0 < n % 10000)
    (rest : String) (hrec : specBig (n / 10000) (i + 1) = some rest)
    (hbu : big_units.get? i = none) :
    specBig n i = none := by
  have hbu2 : big_units[i]? = none := by
    rw [← List.get?_eq_getElem?]
    exact hbu
  rw [specBig]
  simp [dif_neg h, hg, hrec, hbu, hbu2]

theorem specBig_step_zero (n i : Nat) (h : n ≠ 0) (hg : n % 10000 = 0)
    (rest : String) (hrec : specBig (n / 10000) (i + 1) = some rest) :
    specBig n i = some rest := by
  rw [specBig]
  simp [dif_neg h, hg, hrec]

theorem bigLoop_spec :
    ∀ (n i : Nat),
      (bigLoop n i).map (fun ws => concatAll ws.reverse) = specBig n i := by
  intro n
  induction n using Nat.strong_induction_on with
  | _ n ih =>
    intro i
    by_cases hz : n = 0
    · subst hz
      rw [bigLoop_zero, specBig_zero]
      rfl
    · have hpos : 0 < n := Nat.pos_of_ne_zero hz
      have hrec := ih (n / 10000) (Nat.div_lt_self hpos (by decide)) (i + 1)
      have hglt : n % 10000 < 10 ^ (4 - 0) := by
        have := Nat.mod_lt n (show 0 < 10000 by decide)
        simpa using this
      by_cases hg : 0 < n % 10000
      · obtain ⟨sr, hsr, hcat⟩ := smallLoop_spec (n % 10000) 0 hglt
        cases hbu : big_units.get? i with
        | some bu =>
          rw [bigLoop_step_pos n i hz hg sr hsr bu hbu]
          cases hbl : bigLoop (n / 10000) (i + 1) with
          | none =>
            rw [hbl] at hrec
            simp at hrec
            rw [specBig_step_recnone n i hz hrec.symm]
            rfl
          | some rest =>
            rw [hbl] at hrec
            simp at hrec
            rw [specBig_step_pos n i hz hg (concatAll rest.reverse) hrec.symm bu hbu]
            show some (concatAll ((concatAll sr.reverse ++ bu) :: rest).reverse) = _
            rw [concatAll_reverse_cons, hcat]
        | none =>
          rw [bigLoop_step_nounit n i hz hg sr hsr hbu]
          cases hbl : bigLoop (n / 10000) (i + 1) with
          | none =>
            rw [hbl] at hrec
            simp at hrec
            rw [specBig_step_recnone n i hz hrec.symm]
            rfl
          | some rest =>
            rw [hbl] at hrec
            simp at hrec
            rw [specBig_step_pos_nounit n i hz hg (concatAll rest.reverse) hrec.symm hbu]
            rfl
      · have hg0 : n % 10000 = 0 := by omega
        rw [bigLoop_step_zero n i hz hg0]
        cases hbl : bigLoop (n / 10000) (i + 1) with
        | none =>
          rw [hbl] at hrec
          simp at hrec
          rw [specBig_step_recnone n i hz hrec.symm]
          rfl
        | some rest =>
          rw [hbl] at hrec
          simp at hrec
          rw [specBig_step_zero n i hz hg0 (concatAll rest.reverse) hrec.symm]
          rfl

theorem specBig_isSome :
    ∀ (n i : Nat), n < 10000 ^ (5 - i) → (specBig n i).isSome = true := by
  intro n
  induction n using Nat.strong_induction_on with
  | _ n ih =>
    intro i hn
    by_cases hz : n = 0
    · subst hz
      rw [specBig_zero]
      rfl
    · have hpos : 0 < n := Nat.pos_of_ne_zero hz
      have hi : i ≤ 4 := by
        by_contra hgt
        push_neg at hgt
        have h50 : 5 - i = 0 := by omega
        rw [h50, pow_zero] at hn
        omega
      have hdiv : n / 10000 < 10000 ^ (5 - (i + 1)) := by
        have h1 : 5 - i = (5 - (i + 1)) + 1 := by omega
        rw [h1, pow_succ] at hn
        exact (Nat.div_lt_iff_lt_mul (by decide : 0 < 10000)).mpr hn
      have hrec := ih (n / 10000) (Nat.div_lt_self hpos (by decide)) (i + 1) hdiv
      obtain ⟨rest, hrest⟩ := Option.isSome_iff_exists.mp hrec
      have hbu : big_units.get? i = some (big_units.getD i "") := by
        interval_cases i <;> rfl
      by_cases hg : 0 < n % 10000
      · rw [specBig_step_pos n i hz hg rest hrest _ hbu]
        rfl
      · rw [specBig_step_zero n i hz (by omega) rest hrest]
        rfl

theorem specBig_none :
    ∀ (n i : Nat), 10000 ^ (5 - i) ≤ n → specBig n i = none := by
  intro n
  induction n using Nat.strong_induction_on with
  | _ n ih =>
    intro i hn
    have hpos : 0 < n := lt_of_lt_of_le (Nat.pos_pow_of_pos _ (by decide)) hn
    have hz : n ≠ 0 := Nat.pos_iff_ne_zero.mp hpos
    by_cases hi : i ≤ 4
    · have hdiv : 10000 ^ (5 - (i + 1)) ≤ n / 10000 := by
        have h1 : 5 - i = (5 - (i + 1)) + 1 := by omega
        rw [h1, pow_succ] at hn
        exact (Nat.le_div_iff_mul_le (by decide : 0 < 10000)).mpr hn
      have hrec := ih (n / 10000) (Nat.div_lt_self hpos (by decide)) (i + 1) hdiv
      exact specBig_step_recnone n i hz hrec
    · push_neg at hi
      have hbu : big_units.get? i = none := by
        apply List.get?_eq_none.mpr
        show big_units.length ≤ i
        simp [big_units]
        omega
      by_cases hg : 0 < n % 10000
      · cases hrec : specBig (n / 10000) (i + 1) with
        | none => exact specBig_step_recnone n i hz hrec
        | some rest => exact specBig_step_pos_nounit n i hz hg rest hrec hbu
      · have hg0 : n % 10000 = 0 := by omega
        have hbig : 10000 ≤ n := by
          rcases Nat.lt_or_ge n 10000 with hlt | hge
          · rw [Nat.mod_eq_of_lt hlt] at hg0
            omega
          · exact hge
        have hdiv1 : 10000 ^ (5 - (i + 1)) ≤ n / 10000 := by
          have h50 : 5 - (i + 1) = 0 := by omega
          rw [h50, pow_zero]
          exact Nat.one_le_div_iff (by decide) |>.mpr hbig
        have hrec := ih (n / 10000) (Nat.div_lt_self hpos (by decide)) (i + 1) hdiv1
        exact specBig_step_recnone n i hz hrec

theorem num_to_kor_digits (s : String) (h : isDigitStr (stripCommas s) = true) :
    num_to_kor s = (specRender (strToNat (stripCommas s))).getD (stripCommas s) := by
  simp only [num_to_kor, h, Bool.not_true, Bool.false_eq_true, if_false]
  by_cases hz : strToNat (stripCommas s) = 0
  · rw [if_pos hz, hz]
    unfold specRender
    rw [if_pos rfl]
    rfl
  · rw [if_neg hz]
    unfold specRender
    rw [if_neg hz]
    have hspec := bigLoop_spec (strToNat (stripCommas s)) 0
    cases hbl : bigLoop (strToNat (stripCommas s)) 0 with
    | none =>
      rw [hbl] at hspec
      simp at hspec
      rw [← hspec]
      rfl
    | some result =>
      rw [hbl] at hspec
      simp at hspec
      rw [← hspec]
      rfl

theorem num_to_kor_nondigit (s : String) (h : isDigitStr (stripCommas s) = false) :
    num_to_kor s = stripCommas s := by
  simp [num_to_kor, h]

/-- C5 counterexample: the input a,b is not a pure digit string, yet
num_to_kor returns ab - the commas are stripped before the digit test, so a
non-digit input is not returned unchanged; and the pure digit string for
10 to the 20th power, whose leading group lies beyond the largest named
scale unit, is returned as the digit string itself rather than rendered in
base-10000 groups with a large-scale suffix. -/
theorem C5_counterexample :
    num_to_kor "a,b" = "ab" ∧ "ab" ≠ "a,b" ∧
    num_to_kor "100000000000000000000" = "100000000000000000000" ∧
    specRender 100000000000000000000 = none := by
  have hnone : specRender 100000000000000000000 = none := by
    unfold specRender
    rw [if_neg (by norm_num)]
    exact specBig_none 100000000000000000000 0 (by norm_num)
  refine ⟨by decide, by decide, ?_, hnone⟩
  have h := num_to_kor_digits "100000000000000000000" (by decide)
  have hs : stripCommas "100000000000000000000" = "100000000000000000000" := by decide
  have hn : strToNat (stripCommas "100000000000000000000")
      = 100000000000000000000 := by decide
  rw [h, hn, hnone, hs]
  rfl

/-- C5 amended: num_to_kor strips commas first; the digit string for value
zero renders as the zero word; every other comma-stripped pure digit string
renders by the claimed base-10000 group algorithm (zero digits skipped, the
digit word for 1 suppressed at non-ones positions, each group carrying its
large-scale suffix, groups concatenated most significant first) whenever the
rendering is defined, which is exactly for values below 10 to the 20th
power; when the value has no named scale unit, and for every input that is
not a pure digit string after comma-stripping, the comma-stripped input
(not the original input) is returned. -/
theorem C5_num_to_kor_amended (s : String) :
    num_to_kor "0" = "영" ∧
    (isDigitStr (stripCommas s) = true →
      num_to_kor s = (specRender (strToNat (stripCommas s))).getD (stripCommas s)) ∧
    (isDigitStr (stripCommas s) = false → num_to_kor s = stripCommas s) ∧
    (∀ n : Nat, n < 10 ^ 20 → (specRender n).isSome = true) := by
  refine ⟨by decide, num_to_kor_digits s, num_to_kor_nondigit s, ?_⟩
  intro n hn
  unfold specRender
  by_cases hz : n = 0
  · rw [if_pos hz]
    rfl
  · rw [if_neg hz]
    exact specBig_isSome n 0 (by norm_num at hn ⊢; omega)

/-- Witness for C5 amended: the comma-grouped input 1,500 is a pure digit
string after comma stripping and renders with the leading one suppressed
before the thousand unit. -/
theorem C5_witness :
    isDigitStr (stripCommas "1,500") = true ∧ num_to_kor "1,500" = "천오백" := by
  refine ⟨by decide, ?_⟩
  rw [(C5_num_to_kor_amended "1,500").2.1 (by decide)]
  have hv : strToNat (stripCommas "1,500") = 1500 := by decide
  rw [hv]
  have hspec : specRender 1500 = some "천오백" := by
    simp [specRender, specBig, specGroupJoin, specDigitWord, units, num_chars,
      big_units]
  rw [hspec]
  rfl
